import Mathlib

/-!
Verification of the card-collection management core of the nano-start
browser start page (final `CardManager` base class together with its
`SiteManager` and `SearchEngineManager` subclasses).

The JavaScript source is shallowly embedded: the mutable `this.items`
array becomes an explicit `List Item`, DOM-backed interaction state
(editing flag, delete-confirm flag, alert messages, persistence writes,
event dispatch) becomes explicit fields of result records, and host
builtins (`Date.now`, `JSON.parse`, `URL.canParse`, `localStorage`)
become explicit parameters or small executable models.
-/

set_option maxRecDepth 4000

/-- One collection item, as stored in `this.items` of `CardManager`:
`{id, name, url, icon}` where `id` is an opaque string. -/
structure Item where
  id : String
  name : String
  url : String
  icon : String
deriving DecidableEq

/-- A raw candidate entry as it appears in an imported JSON array: any of
the fields may be absent (`none`).  A present-but-empty string and an
absent field are both falsy in the JavaScript checks, see `truthy`. -/
structure RawItem where
  id : Option String
  name : Option String
  url : Option String
  icon : Option String
deriving DecidableEq

/-- JavaScript truthiness of an optional string field: `undefined` and the
empty string are falsy. -/
def truthy : Option String → Bool
  | none => false
  | some s => !(s = "")

/-- The globe glyph used as the default icon on import
(`itemData.icon || "🌐"`). -/
def globeIcon : String := "🌐"

/-- `itemData.icon || "🌐"`: an absent or empty icon falls back to the
globe glyph. -/
def iconOf : Option String → String
  | none => globeIcon
  | some s => if s = "" then globeIcon else s

/-- JavaScript `Array.prototype.findIndex` on the items list: index of the
first element satisfying the predicate (`-1` becomes `none`). -/
def jsFindIndex (p : Item → Bool) : List Item → Option Nat
  | [] => none
  | a :: l => if p a then some 0 else (jsFindIndex p l).map (· + 1)

/-- Digit character of a decimal digit, as produced by
JavaScript's `Number.prototype.toString` in base 10. -/
def decDigitChar : Nat → Char
  | 0 => '0'
  | 1 => '1'
  | 2 => '2'
  | 3 => '3'
  | 4 => '4'
  | 5 => '5'
  | 6 => '6'
  | 7 => '7'
  | 8 => '8'
  | _ => '9'

/-- Decimal digit list of `n`, most significant first, computed with
explicit fuel so that concrete values reduce definitionally. -/
def toDecDigits : Nat → Nat → List Char
  | 0, _ => []
  | fuel + 1, n =>
    if n < 10 then [decDigitChar n]
    else toDecDigits fuel (n / 10) ++ [decDigitChar (n % 10)]

/-- Model of JavaScript `Number.prototype.toString()` on a natural number
clock value (`Date.now().toString()` and `(id++).toString()`). -/
def natToString (n : Nat) : String := String.mk (toDecDigits (n + 1) n)

/-- Evaluate a digit list back to the number it denotes (used only to
prove `natToString` injective). -/
def decValue (l : List Char) : Nat :=
  l.foldl (fun a c => a * 10 + (c.toNat - 48)) 0

/-- The `{query}` placeholder token of search-engine url templates. -/
def queryToken : String := "\x7bquery\x7d"

/-- `List.isPrefixOf`-based scan: position of the first occurrence of
`pat` in `l`, modelling JavaScript `String.prototype.includes` /
the search step of `String.prototype.replace`. -/
def findSub (pat : List Char) : List Char → Option Nat
  | [] => if pat.isEmpty then some 0 else none
  | c :: cs => if pat.isPrefixOf (c :: cs) then some 0 else (findSub pat cs).map (· + 1)

/-- JavaScript `s.includes(pat)`. -/
def strContains (s pat : String) : Bool := (findSub pat.data s.data).isSome

/-- JavaScript `s.replace(pat, rep)` with a string pattern: only the first
occurrence is replaced. -/
def strReplaceFirst (s pat rep : String) : String :=
  match findSub pat.data s.data with
  | none => s
  | some i => String.mk (s.data.take i ++ rep.data ++ s.data.drop (i + pat.data.length))

/-- Executable model of the browser's `URL.canParse`: the string must
start with a scheme — an ASCII letter followed by letters, digits, `+`,
`-` or `.` — terminated by a colon.  This captures the part of WHATWG URL
parsing the embedded code depends on (absolute-url detection). -/
def schemeRest : List Char → Bool
  | [] => false
  | c :: cs =>
    if c = ':' then true
    else (c.isAlpha || c.isDigit || c = '+' || c = '-' || c = '.') && schemeRest cs

/-- See `schemeRest`: model of `URL.canParse`. -/
def canParseModel (s : String) : Bool :=
  match s.data with
  | [] => false
  | c :: cs => c.isAlpha && schemeRest cs

/-- `SearchEngineManager.validateUrl` (engine.js): requires the `{query}`
placeholder (alerting when it is missing), then checks that the url with
`{query}` replaced by `test` parses.  Returns the boolean result together
with the alert messages emitted, parameterised by the host `URL.canParse`. -/
def engineValidateUrl (canParse : String → Bool) (url : String) : Bool × List String :=
  if !(strContains url queryToken) then
    (false, ["Search URL must contain \x7bquery\x7d placeholder."])
  else if !(canParse (strReplaceFirst url queryToken "test")) then (false, [])
  else (true, [])

/-- `SiteManager.validateUrl` (final version): `URL.canParse` with a
specific error message on failure. -/
def siteValidateUrl (canParse : String → Bool) (url : String) : Bool × List String :=
  if !(canParse url) then
    (false, ["Please enter a valid URL (e.g., https://example.com)"])
  else (true, [])

/-- `CardManager.handleDrop`: given the dragged card's id and the drop
target's id, splice the dragged item out and re-insert it immediately
before the target (`newTargetIndex = draggedIndex < targetIndex ?
targetIndex - 1 : targetIndex`).  `targetCard === draggedCard` (same card,
hence same id) and a `findIndex` miss are no-ops. -/
def handleDrop (items : List Item) (draggedId targetId : String) : List Item :=
  if draggedId = targetId then items
  else
    match jsFindIndex (fun s => s.id = draggedId) items,
          jsFindIndex (fun s => s.id = targetId) items with
    | some draggedIndex, some targetIndex =>
      match items.get? draggedIndex with
      | some movedItem =>
        let rest := items.take draggedIndex ++ items.drop (draggedIndex + 1)
        let newTargetIndex :=
          if draggedIndex < targetIndex then targetIndex - 1 else targetIndex
        rest.take newTargetIndex ++ movedItem :: rest.drop newTargetIndex
      | none => items
    | _, _ => items

/-- Loop body of `CardManager.importFromJSON`: walk the raw entries,
skipping falsy-name/url entries and url-duplicates of the current items,
appending the rest with consecutive ids drawn from the `Date.now()`
counter; returns the final items and the imported count. -/
def importFromJSONGo : List RawItem → List Item → Nat → Nat → List Item × Nat
  | [], items, _, count => (items, count)
  | r :: rest, items, id, count =>
    if !(truthy r.name) || !(truthy r.url) then
      importFromJSONGo rest items id count
    else if items.any (fun s => s.url = r.url.getD "") then
      importFromJSONGo rest items id count
    else
      importFromJSONGo rest
        (items ++ [⟨natToString id, r.name.getD "", r.url.getD "", iconOf r.icon⟩])
        (id + 1) (count + 1)

/-- `CardManager.importFromJSON(itemsData)` with the starting value of the
`Date.now()` id counter made explicit. -/
def importFromJSON (items : List Item) (itemsData : List RawItem) (clock : Nat) :
    List Item × Nat :=
  importFromJSONGo itemsData items clock 0

/-- `CardManager.exportToJSON`: the items with only `name`, `url`, `icon`
kept (no id field on export). -/
def exportToJSON (items : List Item) : List RawItem :=
  items.map (fun it => ⟨none, some it.name, some it.url, some it.icon⟩)

/-- The (name, url, icon) data of an item, ignoring its id. -/
def itemData (it : Item) : String × String × String := (it.name, it.url, it.icon)

/-- Whitespace as stripped by JavaScript `String.prototype.trim`
(restricted to the ASCII whitespace characters). -/
def isJsSpace (c : Char) : Bool :=
  c = ' ' || c = '\t' || c = '\n' || c = '\r' || c = '\x0b' || c = '\x0c'

/-- Drop leading whitespace from a character list. -/
def trimLeadL : List Char → List Char
  | [] => []
  | c :: cs => if isJsSpace c then trimLeadL cs else c :: cs

/-- Model of JavaScript `String.prototype.trim`. -/
def jsTrim (s : String) : String :=
  String.mk ((trimLeadL (trimLeadL s.data).reverse).reverse)

/-- Result of a `saveEdit` call: the collection afterwards, whether a
persist (`saveItems`) happened, whether the card is still in editing mode,
and the alert messages shown to the user. -/
structure EditOutcome where
  items : List Item
  persisted : Bool
  editing : Bool
  alerts : List String
deriving DecidableEq

/-- `CardManager.saveEdit` invoked on a card in editing mode: trim the
field values, require both non-empty (alerting otherwise), run the
collection-specific validator, then update name and url of the item found
by `findIndex` and leave editing mode.  Any failure returns early with the
collection untouched and the card still editing. -/
def saveEdit (validate : String → Bool × List String) (items : List Item)
    (itemId rawName rawUrl : String) : EditOutcome :=
  let name := jsTrim rawName
  let url := jsTrim rawUrl
  if name = "" || url = "" then
    ⟨items, false, true, ["Name and URL are required."]⟩
  else
    let v := validate url
    if !v.1 then ⟨items, false, true, v.2⟩
    else
      match jsFindIndex (fun s => s.id = itemId) items, items.get? ((jsFindIndex (fun s => s.id = itemId) items).getD 0) with
      | some itemIndex, some old =>
        ⟨items.take itemIndex ++ ⟨old.id, name, url, old.icon⟩ :: items.drop (itemIndex + 1),
          true, false, v.2⟩
      | _, _ => ⟨items, false, true, v.2⟩

/-- `CardManager.deleteItem` on the items list: remove the item found by
`findIndex`, a miss removes nothing. -/
def deleteItem (items : List Item) (itemId : String) : List Item × Bool :=
  match jsFindIndex (fun s => s.id = itemId) items with
  | none => (items, false)
  | some index => (items.take index ++ items.drop (index + 1), true)

/-- The auto-disarm delay of the delete confirmation, milliseconds
(`setTimeout(..., 3000)` in `createActionsDiv`). -/
def deleteConfirmTimeoutMs : Nat := 3000

/-- State of one card's delete control together with the collection:
whether the delete button carries the `delete-confirm` class, and the
in-memory items. -/
structure DelState where
  armed : Bool
  items : List Item
deriving DecidableEq

/-- Events that touch the delete-confirmation state of a card: a click on
its delete button, any keydown on the card, and the 3-second timer firing. -/
inductive CardEvent where
  | deleteClick
  | keydown
  | timeoutFire
deriving DecidableEq

/-- One step of the delete-confirmation machine of a card for the item
with id `itemId` (delete-button listener, card keydown listener and the
`setTimeout` callback of `createActionsDiv` / `clearDeleteConfirmation` /
`deleteItem`).  Returns the new state and whether a persist happened. -/
def delStep (itemId : String) (s : DelState) : CardEvent → DelState × Bool
  | .deleteClick =>
    if s.armed then
      let r := deleteItem s.items itemId
      (⟨s.armed, r.1⟩, r.2)
    else (⟨true, s.items⟩, false)
  | .keydown => (⟨false, s.items⟩, false)
  | .timeoutFire => (⟨false, s.items⟩, false)

/-- `SiteManager.getPlaceholderItem()` together with the fresh id of
`CardManager.addNewItem`: the new item appended by one add. -/
def addNewItem (items : List Item) (clock : Nat) : List Item :=
  items ++ [⟨natToString clock, "New Site", "https://example.org/", "🌐"⟩]

/-- A collection-mutating operation with the `Date.now()` value observed
when it runs. -/
inductive Op where
  | add (clock : Nat)
  | bulkImport (clock : Nat) (raws : List RawItem)

/-- Apply one operation to the items list. -/
def applyOp (items : List Item) : Op → List Item
  | .add c => addNewItem items c
  | .bulkImport c raws => (importFromJSON items raws c).1

/-- Run a sequence of add / import operations from a starting collection. -/
def runOps (items : List Item) (ops : List Op) : List Item :=
  ops.foldl applyOp items

/-- The clock value an operation starts from. -/
def opLow : Op → Nat
  | .add c => c
  | .bulkImport c _ => c

/-- An upper bound on the id counter values an operation can consume. -/
def opHigh : Op → Nat
  | .add c => c + 1
  | .bulkImport c raws => c + raws.length

/-- The clock discipline under which `Date.now()`-based ids are unique:
each operation starts at or above the bound left by the previous one. -/
def ClockedFrom : Nat → List Op → Prop
  | _, [] => True
  | b, op :: ops => b ≤ opLow op ∧ ClockedFrom (opHigh op) ops

/-- Bound on assigned numeric ids after running a clocked trace. -/
def opsBound : Nat → List Op → Nat
  | b, [] => b
  | _, op :: ops => opsBound (opHigh op) ops

/-- Every item id in the list is the decimal string of some value below
the bound. -/
def IdsBelow (items : List Item) (b : Nat) : Prop :=
  ∀ it ∈ items, ∃ n, n < b ∧ it.id = natToString n

/-- A JSON value as returned by `JSON.parse`. -/
inductive Json where
  | null
  | bool (b : Bool)
  | num (n : Int)
  | str (s : String)
  | arr (xs : List Json)
  | obj (fields : List (String × Json))

/-- JSON encoding of one item (shape of the persisted entries). -/
def itemToJson (it : Item) : Json :=
  .obj [("id", .str it.id), ("name", .str it.name), ("url", .str it.url),
    ("icon", .str it.icon)]

/-- `DEFAULT_SEARCH_ENGINES` of engine.js. -/
def defaultSearchEngines : List Item :=
  [⟨"google", "Google", "https://www.google.com/search?q=\x7bquery\x7d", "🔍"⟩,
   ⟨"bing", "Bing", "https://www.bing.com/search?q=\x7bquery\x7d", "🔵"⟩,
   ⟨"duckduckgo", "DuckDuckGo", "https://duckduckgo.com/?q=\x7bquery\x7d", "🦆"⟩]

/-- `CardManager.loadItems` / `SearchEngineManager.loadItems`: read the
stored value (`none` when the key is absent), parse it with the host
`JSON.parse` (whose outcome per input string is the `parse` parameter),
assign whatever value parsing produced, and fall back to the
collection-specific defaults when the key is absent or parsing throws.
The value assigned to `this.items` is returned as a `Json`. -/
def loadItems (parse : String → Except String Json) (stored : Option String)
    (defaults : Json) : Json :=
  match stored with
  | none => defaults
  | some s =>
    match parse s with
    | .ok v => v
    | .error _ => defaults

/-- The JSON encoding of the engine defaults, the value `getDefaultItems`
yields for the search-engine collection. -/
def engineDefaultsJson : Json := Json.arr (defaultSearchEngines.map itemToJson)

/-- Result of `saveItems`: the stored value under the manager's key after
the call, whether the write failure was logged, whether the
`itemsUpdated` event was dispatched, and the in-memory items afterwards. -/
structure SaveOutcome where
  store : Option String
  logged : Bool
  emitted : Bool
  items : List Item
deriving DecidableEq

/-- `CardManager.saveItems`: try to write `JSON.stringify(this.items)`
under the storage key (the host serializer is the `serialize` parameter
and the success of `localStorage.setItem` is `writeOk`); a failure is
logged and swallowed; the `itemsUpdated` event is dispatched afterwards in
either case, and the in-memory items are untouched. -/
def saveItems (serialize : List Item → String) (writeOk : Bool)
    (store : Option String) (items : List Item) : SaveOutcome :=
  if writeOk then ⟨some (serialize items), false, true, items⟩
  else ⟨store, true, true, items⟩

/-! ### Helper lemmas -/

theorem jsFindIndex_append_cons (p : Item → Bool) (l1 : List Item) (a : Item)
    (l2 : List Item) (h1 : ∀ x ∈ l1, p x = false) (ha : p a = true) :
    jsFindIndex p (l1 ++ a :: l2) = some l1.length := by
  induction l1 with
  | nil => simp [jsFindIndex, ha]
  | cons b l ih =>
    have hb : p b = false := h1 b (by simp)
    have ih2 := ih (fun x hx => h1 x (by simp [hx]))
    simp [jsFindIndex, hb, ih2]

theorem get_append_cons (l1 : List Item) (a : Item) (l2 : List Item) :
    (l1 ++ a :: l2).get? l1.length = some a := by
  induction l1 with
  | nil => rfl
  | cons b l ih => simpa [List.get?_cons_succ] using ih

theorem drop_append_cons (l1 : List Item) (a : Item) (l2 : List Item) :
    (l1 ++ a :: l2).drop (l1.length + 1) = l2 := by
  induction l1 with
  | nil => rfl
  | cons b l ih => simp [ih]

theorem decDigitChar_toNat (d : Nat) (h : d < 10) :
    (decDigitChar d).toNat = 48 + d := by
  interval_cases d <;> rfl

theorem decValue_append_digit (l : List Char) (c : Char) :
    decValue (l ++ [c]) = decValue l * 10 + (c.toNat - 48) := by
  simp [decValue, List.foldl_append]

theorem decValue_toDecDigits (fuel n : Nat) (h : n < fuel) :
    decValue (toDecDigits fuel n) = n := by
  induction fuel generalizing n with
  | zero => omega
  | succ fuel ih =>
    by_cases hn : n < 10
    · simp [toDecDigits, hn, decValue, decDigitChar_toNat n hn]
    · have hpos : 0 < n := by omega
      have hdiv : n / 10 < n := Nat.div_lt_self hpos (by norm_num)
      simp only [toDecDigits, hn, if_false]
      rw [decValue_append_digit, ih (n / 10) (by omega),
        decDigitChar_toNat (n % 10) (Nat.mod_lt n (by norm_num))]
      omega

theorem natToString_inj {a b : Nat} (h : natToString a = natToString b) : a = b := by
  have hdata : toDecDigits (a + 1) a = toDecDigits (b + 1) b :=
    congrArg String.data h
  have ha := decValue_toDecDigits (a + 1) a (by omega)
  have hb := decValue_toDecDigits (b + 1) b (by omega)
  rw [hdata, hb] at ha
  omega

theorem handleDrop_before (pre mid post : List Item) (d t : Item)
    (hdt : d.id ≠ t.id)
    (hpred : ∀ x ∈ pre, x.id ≠ d.id) (hpret : ∀ x ∈ pre, x.id ≠ t.id)
    (hmidt : ∀ x ∈ mid, x.id ≠ t.id) :
    handleDrop (pre ++ d :: (mid ++ t :: post)) d.id t.id =
      pre ++ (mid ++ d :: t :: post) := by
  have hfd : jsFindIndex (fun s => s.id = d.id) (pre ++ d :: (mid ++ t :: post)) =
      some pre.length :=
    jsFindIndex_append_cons _ pre d _ (fun x hx => by simp [hpred x hx]) (by simp)
  have hshape : pre ++ d :: (mid ++ t :: post) = (pre ++ d :: mid) ++ t :: post := by
    simp
  have hft : jsFindIndex (fun s => s.id = t.id) (pre ++ d :: (mid ++ t :: post)) =
      some (pre.length + (mid.length + 1)) := by
    rw [hshape]
    have := jsFindIndex_append_cons (fun s => s.id = t.id) (pre ++ d :: mid) t post
      (fun x hx => by
        rcases List.mem_append.mp hx with hx | hx
        · simp [hpret x hx]
        · rcases List.mem_cons.mp hx with rfl | hx
          · simp [hdt]
          · simp [hmidt x hx])
      (by simp)
    simpa using this
  have hget : (pre ++ d :: (mid ++ t :: post)).get? pre.length = some d :=
    get_append_cons pre d _
  have htake : (pre ++ d :: (mid ++ t :: post)).take pre.length = pre := by
    simp
  have hdrop : (pre ++ d :: (mid ++ t :: post)).drop (pre.length + 1) =
      mid ++ t :: post := drop_append_cons pre d _
  have hlt : pre.length < pre.length + (mid.length + 1) := by omega
  simp only [handleDrop, hdt, if_false, hfd, hft, hget, htake, hdrop, hlt, if_true]
  have h2 : pre.length + (mid.length + 1) - 1 = (pre ++ mid).length := by
    rw [List.length_append]; omega
  rw [h2]
  rw [show pre ++ (mid ++ t :: post) = (pre ++ mid) ++ t :: post from by simp]
  rw [List.take_left, List.drop_left]
  simp

theorem handleDrop_after (pre mid post : List Item) (d t : Item)
    (hdt : d.id ≠ t.id)
    (hpred : ∀ x ∈ pre, x.id ≠ d.id) (hpret : ∀ x ∈ pre, x.id ≠ t.id)
    (hmidd : ∀ x ∈ mid, x.id ≠ d.id) :
    handleDrop (pre ++ t :: (mid ++ d :: post)) d.id t.id =
      pre ++ d :: t :: (mid ++ post) := by
  have hshape : pre ++ t :: (mid ++ d :: post) = (pre ++ t :: mid) ++ d :: post := by
    simp
  have hfd : jsFindIndex (fun s => s.id = d.id) (pre ++ t :: (mid ++ d :: post)) =
      some (pre.length + (mid.length + 1)) := by
    rw [hshape]
    have := jsFindIndex_append_cons (fun s => s.id = d.id) (pre ++ t :: mid) d post
      (fun x hx => by
        rcases List.mem_append.mp hx with hx | hx
        · simp [hpred x hx]
        · rcases List.mem_cons.mp hx with rfl | hx
          · simp [Ne.symm hdt]
          · simp [hmidd x hx])
      (by simp)
    simpa using this
  have hft : jsFindIndex (fun s => s.id = t.id) (pre ++ t :: (mid ++ d :: post)) =
      some pre.length :=
    jsFindIndex_append_cons _ pre t _ (fun x hx => by simp [hpret x hx]) (by simp)
  have hget : (pre ++ t :: (mid ++ d :: post)).get? (pre.length + (mid.length + 1)) =
      some d := by
    rw [hshape]
    have := get_append_cons (pre ++ t :: mid) d post
    simpa using this
  have htake : (pre ++ t :: (mid ++ d :: post)).take (pre.length + (mid.length + 1)) =
      pre ++ t :: mid := by
    rw [hshape]
    have := List.take_left (pre ++ t :: mid) (d :: post)
    simpa using this
  have hdrop : (pre ++ t :: (mid ++ d :: post)).drop (pre.length + (mid.length + 1) + 1) =
      post := by
    rw [hshape]
    have := drop_append_cons (pre ++ t :: mid) d post
    simpa using this
  have hnlt : ¬ (pre.length + (mid.length + 1) < pre.length) := by omega
  simp only [handleDrop, hdt, if_false, hfd, hft, hget, htake, hdrop, hnlt, if_true]
  rw [show (pre ++ t :: mid) ++ post = pre ++ (t :: mid ++ post) from by simp]
  rw [List.take_left, List.drop_left]
  simp

theorem handleDrop_same (items : List Item) (anyId : String) :
    handleDrop items anyId anyId = items := by
  simp [handleDrop]

theorem handleDrop_miss (items : List Item) (dId tId : String)
    (h : jsFindIndex (fun s => s.id = dId) items = none ∨
      jsFindIndex (fun s => s.id = tId) items = none) :
    handleDrop items dId tId = items := by
  by_cases he : dId = tId
  · simp [handleDrop, he]
  · rcases h with h | h
    · cases hf : jsFindIndex (fun s => s.id = tId) items <;>
        simp [handleDrop, he, h, hf]
    · cases hf : jsFindIndex (fun s => s.id = dId) items <;>
        simp [handleDrop, he, h, hf]

/-- C1: for distinct ids both present in the collection, `handleDrop`
moves the dragged item to the position immediately preceding the target
item, leaving the relative order of all other items (`pre`, `mid`, `post`)
unchanged, in both the dragged-before-target and dragged-after-target
configurations; it is a no-op when the dragged and target ids coincide or
either id is absent; and on the collection `[A, B, C]` with ids 1, 2, 3,
reordering 3 onto 1 yields `[C, A, B]`. -/
theorem handleDrop_reorder_spec :
    (∀ pre mid post (d t : Item),
      d.id ≠ t.id →
      (∀ x ∈ pre ++ mid, x.id ≠ d.id ∧ x.id ≠ t.id) →
      handleDrop (pre ++ d :: (mid ++ t :: post)) d.id t.id =
        pre ++ (mid ++ d :: t :: post) ∧
      handleDrop (pre ++ t :: (mid ++ d :: post)) d.id t.id =
        pre ++ d :: t :: (mid ++ post))
    ∧ (∀ items (anyId : String), handleDrop items anyId anyId = items)
    ∧ (∀ items dId tId,
      jsFindIndex (fun s => s.id = dId) items = none ∨
      jsFindIndex (fun s => s.id = tId) items = none →
      handleDrop items dId tId = items)
    ∧ handleDrop [⟨"1", "A", "https://a.com", "🌐"⟩, ⟨"2", "B", "https://b.com", "🌐"⟩,
        ⟨"3", "C", "https://c.com", "🌐"⟩] "3" "1" =
      [⟨"3", "C", "https://c.com", "🌐"⟩, ⟨"1", "A", "https://a.com", "🌐"⟩,
        ⟨"2", "B", "https://b.com", "🌐"⟩] := by
  refine ⟨?_, handleDrop_same, handleDrop_miss, by decide⟩
  intro pre mid post d t hdt hothers
  have hpred : ∀ x ∈ pre, x.id ≠ d.id := fun x hx =>
    (hothers x (List.mem_append.mpr (Or.inl hx))).1
  have hpret : ∀ x ∈ pre, x.id ≠ t.id := fun x hx =>
    (hothers x (List.mem_append.mpr (Or.inl hx))).2
  have hmidd : ∀ x ∈ mid, x.id ≠ d.id := fun x hx =>
    (hothers x (List.mem_append.mpr (Or.inr hx))).1
  have hmidt : ∀ x ∈ mid, x.id ≠ t.id := fun x hx =>
    (hothers x (List.mem_append.mpr (Or.inr hx))).2
  exact ⟨handleDrop_before pre mid post d t hdt hpred hpret hmidt,
    handleDrop_after pre mid post d t hdt hpred hpret hmidd⟩

/-- Witness for C1 at a concrete three-item collection. -/
theorem handleDrop_reorder_spec_witness :
    handleDrop [⟨"5", "D", "https://d.com", "d"⟩, ⟨"9", "M", "https://m.com", "m"⟩,
        ⟨"7", "T", "https://t.com", "t"⟩] "5" "7" =
      [⟨"9", "M", "https://m.com", "m"⟩, ⟨"5", "D", "https://d.com", "d"⟩,
        ⟨"7", "T", "https://t.com", "t"⟩] :=
  (handleDrop_reorder_spec.1 [] [⟨"9", "M", "https://m.com", "m"⟩] []
    ⟨"5", "D", "https://d.com", "d"⟩ ⟨"7", "T", "https://t.com", "t"⟩
    (by decide) (by decide)).1

theorem importGo_spec (raws : List RawItem) : ∀ items id count, ∃ app,
    importFromJSONGo raws items id count = (items ++ app, count + app.length) ∧
    app.length ≤ raws.length ∧
    (∀ k, (hk : k < app.length) → (app.get ⟨k, hk⟩).id = natToString (id + k)) ∧
    (∀ it ∈ app, ∃ r ∈ raws, truthy r.name = true ∧ truthy r.url = true ∧
      it.name = r.name.getD "" ∧ it.url = r.url.getD "" ∧ it.icon = iconOf r.icon) := by
  induction raws with
  | nil =>
    intro items id count
    exact ⟨[], by simp [importFromJSONGo], by simp, by simp, by simp⟩
  | cons r rest ih =>
    intro items id count
    by_cases h1 : (!(truthy r.name) || !(truthy r.url)) = true
    · obtain ⟨app, he, hlen, hid, hprov⟩ := ih items id count
      refine ⟨app, ?_, ?_, hid, ?_⟩
      · rw [show importFromJSONGo (r :: rest) items id count =
          importFromJSONGo rest items id count from by simp [importFromJSONGo, h1]]
        exact he
      · simp; omega
      · intro it hit
        obtain ⟨r', hr', hrest⟩ := hprov it hit
        exact ⟨r', List.mem_cons_of_mem _ hr', hrest⟩
    · by_cases h2 : (items.any fun s => s.url = r.url.getD "") = true
      · obtain ⟨app, he, hlen, hid, hprov⟩ := ih items id count
        refine ⟨app, ?_, ?_, hid, ?_⟩
        · rw [show importFromJSONGo (r :: rest) items id count =
            importFromJSONGo rest items id count from by simp [importFromJSONGo, h1, h2]]
          exact he
        · simp; omega
        · intro it hit
          obtain ⟨r', hr', hrest⟩ := hprov it hit
          exact ⟨r', List.mem_cons_of_mem _ hr', hrest⟩
      · have hval : truthy r.name = true ∧ truthy r.url = true := by
          constructor <;> simp_all
        obtain ⟨app, he, hlen, hid, hprov⟩ :=
          ih (items ++ [⟨natToString id, r.name.getD "", r.url.getD "", iconOf r.icon⟩])
            (id + 1) (count + 1)
        refine ⟨⟨natToString id, r.name.getD "", r.url.getD "", iconOf r.icon⟩ :: app,
          ?_, ?_, ?_, ?_⟩
        · rw [show importFromJSONGo (r :: rest) items id count =
            importFromJSONGo rest
              (items ++ [⟨natToString id, r.name.getD "", r.url.getD "", iconOf r.icon⟩])
              (id + 1) (count + 1) from by simp [importFromJSONGo, h1, h2]]
          rw [he]
          refine Prod.ext ?_ ?_
          · simp
          · simp; omega
        · simp; omega
        · intro k hk
          match k with
          | 0 => simp
          | Nat.succ k2 =>
            have hk2 : k2 < app.length := by simpa using hk
            have := hid k2 hk2
            simp only [List.get_cons_succ]
            rw [this]
            exact congrArg natToString (by omega)
        · intro it hit
          rcases List.mem_cons.mp hit with rfl | hit
          · exact ⟨r, List.mem_cons_self r rest, hval.1, hval.2, rfl, rfl, rfl⟩
          · obtain ⟨r', hr', hrest⟩ := hprov it hit
            exact ⟨r', List.mem_cons_of_mem _ hr', hrest⟩

theorem importGo_skip_invalid (r : RawItem)
    (hr : truthy r.name = false ∨ truthy r.url = false) (rs1 rs2 : List RawItem) :
    ∀ items id count, importFromJSONGo (rs1 ++ r :: rs2) items id count =
      importFromJSONGo (rs1 ++ rs2) items id count := by
  have hr2 : (!(truthy r.name) || !(truthy r.url)) = true := by
    rcases hr with hr | hr <;> simp [hr]
  induction rs1 with
  | nil => intro items id count; simp [importFromJSONGo, hr2]
  | cons h hs ih =>
    intro items id count
    by_cases h1 : (!(truthy h.name) || !(truthy h.url)) = true
    · simp [importFromJSONGo, h1, ih]
    · by_cases h2 : (items.any fun s => s.url = h.url.getD "") = true
      · simp [importFromJSONGo, h1, h2, ih]
      · simp [importFromJSONGo, h1, h2, ih]

theorem importGo_skip_dup (r : RawItem) (rs1 rs2 : List RawItem) :
    ∀ items id count, (∃ s ∈ items, s.url = r.url.getD "") →
      importFromJSONGo (rs1 ++ r :: rs2) items id count =
        importFromJSONGo (rs1 ++ rs2) items id count := by
  induction rs1 with
  | nil =>
    intro items id count hmem
    have hany : (items.any fun s => s.url = r.url.getD "") = true := by
      rcases hmem with ⟨s, hs, hurl⟩
      exact List.any_eq_true.mpr ⟨s, hs, by simp [hurl]⟩
    by_cases h1 : (!(truthy r.name) || !(truthy r.url)) = true
    · simp [importFromJSONGo, h1]
    · simp [importFromJSONGo, h1, hany]
  | cons h hs ih =>
    intro items id count hmem
    by_cases h1 : (!(truthy h.name) || !(truthy h.url)) = true
    · simp [importFromJSONGo, h1, ih items id count hmem]
    · by_cases h2 : (items.any fun s => s.url = h.url.getD "") = true
      · simp [importFromJSONGo, h1, h2, ih items id count hmem]
      · have hmem2 : ∃ s ∈ items ++
            [⟨natToString id, h.name.getD "", h.url.getD "", iconOf h.icon⟩],
            s.url = r.url.getD "" := by
          rcases hmem with ⟨s, hs, hurl⟩
          exact ⟨s, List.mem_append.mpr (Or.inl hs), hurl⟩
        simp [importFromJSONGo, h1, h2, ih _ (id + 1) (count + 1) hmem2]

/-- C2: `importFromJSON` appends the surviving entries at the end of the
collection (never replacing or removing an existing item) and returns
exactly the number appended; each appended item stems from a raw entry
with truthy name and url, keeps that entry's name and url, defaults its
icon to the globe glyph when absent or empty, and carries a freshly
generated id — the decimal clock counter value, consecutive within the
batch; an entry with a missing or empty name or url contributes nothing;
an entry whose url equals the url of an item already in the collection
contributes nothing; and importing `[{name:"X", url:"https://x.com"},
{name:"", url:"https://y.com"}]` into the empty collection imports
exactly the single item X and returns 1. -/
theorem importFromJSON_spec :
    (∀ items raws clock, ∃ app,
      importFromJSON items raws clock = (items ++ app, app.length) ∧
      (∀ k, (hk : k < app.length) → (app.get ⟨k, hk⟩).id = natToString (clock + k)) ∧
      (∀ it ∈ app, ∃ r ∈ raws, truthy r.name = true ∧ truthy r.url = true ∧
        it.name = r.name.getD "" ∧ it.url = r.url.getD "" ∧ it.icon = iconOf r.icon))
    ∧ (∀ items clock r rs1 rs2, truthy r.name = false ∨ truthy r.url = false →
        importFromJSON items (rs1 ++ r :: rs2) clock =
          importFromJSON items (rs1 ++ rs2) clock)
    ∧ (∀ items clock r rs1 rs2, (∃ s ∈ items, s.url = r.url.getD "") →
        importFromJSON items (rs1 ++ r :: rs2) clock =
          importFromJSON items (rs1 ++ rs2) clock)
    ∧ importFromJSON [] [⟨none, some "X", some "https://x.com", none⟩,
        ⟨none, some "", some "https://y.com", none⟩] 100 =
      ([⟨natToString 100, "X", "https://x.com", globeIcon⟩], 1) := by
  refine ⟨?_, ?_, ?_, by decide⟩
  · intro items raws clock
    obtain ⟨app, he, _, hid, hprov⟩ := importGo_spec raws items clock 0
    exact ⟨app, by simpa [importFromJSON] using he, hid, hprov⟩
  · intro items clock r rs1 rs2 hr
    exact importGo_skip_invalid r hr rs1 rs2 items clock 0
  · intro items clock r rs1 rs2 hmem
    exact importGo_skip_dup r rs1 rs2 items clock 0 hmem

/-- Witness for C2: a concrete entry with an empty name is skipped. -/
theorem importFromJSON_spec_witness :
    importFromJSON [] [⟨none, some "", some "https://y.com", none⟩] 7 =
      importFromJSON [] [] 7 :=
  importFromJSON_spec.2.1 [] 7 ⟨none, some "", some "https://y.com", none⟩ [] []
    (Or.inl (by decide))

theorem importGo_export (items : List Item) :
    ∀ acc id count,
      (∀ it ∈ items, it.name ≠ "" ∧ it.url ≠ "" ∧ it.icon ≠ "") →
      items.Pairwise (fun a b => a.url ≠ b.url) →
      (∀ a ∈ acc, ∀ b ∈ items, a.url ≠ b.url) →
      ∃ app, importFromJSONGo (exportToJSON items) acc id count =
          (acc ++ app, count + items.length) ∧
        app.map itemData = items.map itemData := by
  induction items with
  | nil =>
    intro acc id count _ _ _
    exact ⟨[], by simp [exportToJSON, importFromJSONGo], by simp⟩
  | cons it rest ih =>
    intro acc id count hne hpw hdisj
    have hin : it ∈ it :: rest := List.mem_cons_self it rest
    have hnames := hne it hin
    have h2 : (acc.any fun s => s.url = it.url) = false := by
      rw [List.any_eq_false]
      intro a ha
      simp [hdisj a ha it hin]
    have hicon : iconOf (some it.icon) = it.icon := by
      simp [iconOf, hnames.2.2]
    have hstep : importFromJSONGo (exportToJSON (it :: rest)) acc id count =
        importFromJSONGo (exportToJSON rest)
          (acc ++ [⟨natToString id, it.name, it.url, iconOf (some it.icon)⟩])
          (id + 1) (count + 1) := by
      simp only [exportToJSON, List.map_cons, importFromJSONGo, truthy,
        Option.getD_some, Bool.not_eq_true]
      simp [hnames.1, hnames.2.1, h2]
    obtain ⟨app, he, hmap⟩ :=
      ih (acc ++ [⟨natToString id, it.name, it.url, iconOf (some it.icon)⟩])
        (id + 1) (count + 1)
        (fun b hb => hne b (List.mem_cons_of_mem _ hb))
        (List.Pairwise.of_cons hpw)
        (by
          intro a ha b hb
          rcases List.mem_append.mp ha with ha | ha
          · exact hdisj a ha b (List.mem_cons_of_mem _ hb)
          · rcases List.mem_singleton.mp ha with rfl
            simpa [hicon] using (List.rel_of_pairwise_cons hpw hb))
    refine ⟨⟨natToString id, it.name, it.url, iconOf (some it.icon)⟩ :: app, ?_, ?_⟩
    · rw [hstep, he]
      refine Prod.ext ?_ ?_
      · simp
      · simp; omega
    · simp [hmap, itemData, hicon]

/-- C3 counterexample: a collection holding two items that share a url
(reachable, since neither editing nor adding enforces url distinctness) is
not reproduced by importing its own export into an empty collection — the
dedupe-by-url rule of the import drops the second item, so the multiset of
(name, url, icon) tuples shrinks. -/
theorem exportImport_roundtrip_counterexample :
    ¬ List.Perm
      ((importFromJSON [] (exportToJSON
        [⟨"1", "A", "https://a.com", "x"⟩, ⟨"2", "B", "https://a.com", "y"⟩]) 0).1.map
          itemData)
      ([⟨"1", "A", "https://a.com", "x"⟩, ⟨"2", "B", "https://a.com", "y"⟩].map
        itemData) := by
  intro h
  have hlen := h.length_eq
  have h1 : ((importFromJSON [] (exportToJSON
      [⟨"1", "A", "https://a.com", "x"⟩, ⟨"2", "B", "https://a.com", "y"⟩]) 0).1.map
        itemData).length = 1 := by decide
  rw [h1] at hlen
  simp at hlen

/-- C3 as amended: for a collection whose items all have non-empty name,
url and icon and pairwise distinct urls, importing the export into an
empty collection reproduces the (name, url, icon) tuples exactly (even in
order), with the import count equal to the collection size; only the ids
differ.  Without the distinct-url and non-empty-icon conditions the claim
fails, see the counterexample. -/
theorem exportImport_roundtrip_amended (items : List Item) (clock : Nat)
    (hne : ∀ it ∈ items, it.name ≠ "" ∧ it.url ≠ "" ∧ it.icon ≠ "")
    (hpw : items.Pairwise (fun a b => a.url ≠ b.url)) :
    (importFromJSON [] (exportToJSON items) clock).1.map itemData =
      items.map itemData ∧
    (importFromJSON [] (exportToJSON items) clock).2 = items.length := by
  obtain ⟨app, he, hmap⟩ := importGo_export items [] clock 0 hne hpw (by simp)
  have he2 : importFromJSON [] (exportToJSON items) clock = (app, items.length) := by
    simpa [importFromJSON] using he
  rw [he2]
  exact ⟨hmap, rfl⟩

/-- Witness for the amended C3 at a concrete two-item collection. -/
theorem exportImport_roundtrip_amended_witness :
    (importFromJSON [] (exportToJSON
      [⟨"1", "A", "https://a.com", "x"⟩, ⟨"2", "B", "https://b.com", "y"⟩]) 50).1.map
        itemData =
      [⟨"1", "A", "https://a.com", "x"⟩, ⟨"2", "B", "https://b.com", "y"⟩].map
        itemData ∧
    (importFromJSON [] (exportToJSON
      [⟨"1", "A", "https://a.com", "x"⟩, ⟨"2", "B", "https://b.com", "y"⟩]) 50).2 = 2 :=
  exportImport_roundtrip_amended
    [⟨"1", "A", "https://a.com", "x"⟩, ⟨"2", "B", "https://b.com", "y"⟩] 50
    (by decide) (by decide)

/-- C4 counterexample: on a search-engine collection, committing an edit
whose url is the bare placeholder `\x7bquery\x7d` fails validation (the
substituted text `test` does not parse as a URL), the edit is aborted with
the collection unchanged — but no error message is surfaced to the user:
the engine validator only alerts when the placeholder is missing, and the
final `saveEdit` itself alerts only for empty fields. -/
theorem saveEdit_failure_counterexample :
    saveEdit (engineValidateUrl canParseModel)
      [⟨"1", "A", "https://a.com/?q=\x7bquery\x7d", "🔎"⟩] "1" "A" "\x7bquery\x7d" =
      ⟨[⟨"1", "A", "https://a.com/?q=\x7bquery\x7d", "🔎"⟩], false, true, []⟩ := by
  decide

/-- C4 as amended: whenever validation fails — trimmed name or url empty,
or the collection-specific validator rejecting the url — `saveEdit` aborts
with the collection unchanged, nothing persisted and the card still in
editing mode; an error is surfaced for an empty name or url, and exactly
when the validator itself reports one: the site validator reports an
error on every failure, while the engine validator reports one only when
the `\x7bquery\x7d` placeholder is missing (not when the substituted url
fails to parse); in particular, on `[(id 1, name A, url https://a.com)]`
committing an empty name leaves the item unchanged, surfaces an error and
keeps the card editing. -/
theorem saveEdit_validation_failure_spec :
    (∀ validate items (itemId rawName rawUrl : String),
      jsTrim rawName = "" ∨ jsTrim rawUrl = "" →
      saveEdit validate items itemId rawName rawUrl =
        ⟨items, false, true, ["Name and URL are required."]⟩)
    ∧ (∀ validate items (itemId rawName rawUrl : String),
      jsTrim rawName ≠ "" → jsTrim rawUrl ≠ "" →
      (validate (jsTrim rawUrl)).1 = false →
      saveEdit validate items itemId rawName rawUrl =
        ⟨items, false, true, (validate (jsTrim rawUrl)).2⟩)
    ∧ (∀ (cp : String → Bool) url, (siteValidateUrl cp url).1 = false →
      (siteValidateUrl cp url).2 ≠ [])
    ∧ (∀ (cp : String → Bool) url, (engineValidateUrl cp url).1 = false →
      ((engineValidateUrl cp url).2 ≠ [] ↔ strContains url queryToken = false))
    ∧ saveEdit (siteValidateUrl canParseModel)
        [⟨"1", "A", "https://a.com", "🌐"⟩] "1" "" "https://a.com" =
      ⟨[⟨"1", "A", "https://a.com", "🌐"⟩], false, true,
        ["Name and URL are required."]⟩ := by
  refine ⟨?_, ?_, ?_, ?_, by decide⟩
  · intro validate items itemId rawName rawUrl h
    rcases h with h | h <;> simp [saveEdit, h]
  · intro validate items itemId rawName rawUrl hn hu hv
    simp [saveEdit, hn, hu, hv]
  · intro cp url hfail
    cases hcp : cp url <;> simp [siteValidateUrl, hcp] at hfail ⊢
  · intro cp url hfail
    cases hq : strContains url queryToken
    · simp [engineValidateUrl, hq]
    · cases hcp : cp (strReplaceFirst url queryToken "test") <;>
        simp [engineValidateUrl, hq, hcp] at hfail ⊢

/-- Witness for the amended C4: an empty name aborts a concrete edit. -/
theorem saveEdit_validation_failure_spec_witness :
    saveEdit (siteValidateUrl canParseModel) [] "z" "  " "https://b.org" =
      ⟨[], false, true, ["Name and URL are required."]⟩ :=
  saveEdit_validation_failure_spec.1 (siteValidateUrl canParseModel) [] "z" "  "
    "https://b.org" (Or.inl (by decide))

/-- C5: the first delete click on a card only arms the confirm state and
leaves the collection unchanged; a delete click while armed removes
exactly the item with that card's id (the other items keep their relative
order) and persists; a keydown on the card and the 3-second timer firing
both disarm without touching the collection; a click after a disarm again
only re-arms, so a disarmed or timed-out request never removes an item;
and the auto-disarm delay is the fixed 3000 ms timeout. -/
theorem requestDelete_two_step_spec :
    (∀ items (itemId : String),
      delStep itemId ⟨false, items⟩ CardEvent.deleteClick = (⟨true, items⟩, false))
    ∧ (∀ pre (it : Item) post (itemId : String), it.id = itemId →
      (∀ x ∈ pre, x.id ≠ itemId) →
      delStep itemId ⟨true, pre ++ it :: post⟩ CardEvent.deleteClick =
        (⟨true, pre ++ post⟩, true))
    ∧ (∀ items (itemId : String) (b : Bool),
      delStep itemId ⟨b, items⟩ CardEvent.keydown = (⟨false, items⟩, false) ∧
      delStep itemId ⟨b, items⟩ CardEvent.timeoutFire = (⟨false, items⟩, false))
    ∧ (∀ items (itemId : String) (b : Bool),
      delStep itemId
        ((delStep itemId ⟨b, items⟩ CardEvent.timeoutFire).1) CardEvent.deleteClick =
        (⟨true, items⟩, false))
    ∧ deleteConfirmTimeoutMs = 3000 := by
  refine ⟨fun items itemId => by simp [delStep], ?_,
    fun items itemId b => ⟨rfl, rfl⟩, fun items itemId b => by simp [delStep], rfl⟩
  intro pre it post itemId hid hpre
  have hf : jsFindIndex (fun s => s.id = itemId) (pre ++ it :: post) =
      some pre.length :=
    jsFindIndex_append_cons _ pre it post (fun x hx => by simp [hpre x hx])
      (by simp [hid])
  have htake : (pre ++ it :: post).take pre.length = pre := by
    simp
  simp [delStep, deleteItem, hf, htake, drop_append_cons]

/-- Witness for C5: arming then confirming on a concrete two-item
collection removes exactly the targeted item. -/
theorem requestDelete_two_step_spec_witness :
    delStep "2" ⟨true, [⟨"1", "A", "https://a.com", "a"⟩,
        ⟨"2", "B", "https://b.com", "b"⟩, ⟨"3", "C", "https://c.com", "c"⟩]⟩
      CardEvent.deleteClick =
      (⟨true, [⟨"1", "A", "https://a.com", "a"⟩, ⟨"3", "C", "https://c.com", "c"⟩]⟩,
        true) :=
  requestDelete_two_step_spec.2.1 [⟨"1", "A", "https://a.com", "a"⟩]
    ⟨"2", "B", "https://b.com", "b"⟩ [⟨"3", "C", "https://c.com", "c"⟩] "2"
    (by decide) (by decide)

theorem runOps_unique_ids (ops : List Op) : ∀ items b,
    ClockedFrom b ops → IdsBelow items b →
    items.Pairwise (fun a c => a.id ≠ c.id) →
    (runOps items ops).Pairwise (fun a c => a.id ≠ c.id) ∧
    IdsBelow (runOps items ops) (opsBound b ops) := by
  induction ops with
  | nil => intro items b _ hb hpw; exact ⟨hpw, hb⟩
  | cons op ops ih =>
    intro items b hck hb hpw
    obtain ⟨hle, hck2⟩ := hck
    have hrun : runOps items (op :: ops) = runOps (applyOp items op) ops := rfl
    have hbound : opsBound b (op :: ops) = opsBound (opHigh op) ops := rfl
    rw [hrun, hbound]
    have hstep : IdsBelow (applyOp items op) (opHigh op) ∧
        (applyOp items op).Pairwise (fun a c => a.id ≠ c.id) := by
      cases op with
      | add c =>
        have hle2 : b ≤ c := hle
        constructor
        · intro it hit
          rcases List.mem_append.mp hit with hit | hit
          · obtain ⟨n, hn, hid⟩ := hb it hit
            exact ⟨n, by simp only [opHigh]; omega, hid⟩
          · rcases List.mem_singleton.mp hit with rfl
            exact ⟨c, by simp only [opHigh]; omega, rfl⟩
        · rw [applyOp, addNewItem, List.pairwise_append]
          refine ⟨hpw, by simp, ?_⟩
          intro a ha y hy
          rcases List.mem_singleton.mp hy with rfl
          obtain ⟨n, hn, hid⟩ := hb a ha
          intro hcontra
          rw [hid] at hcontra
          have := natToString_inj hcontra
          omega
      | bulkImport c raws =>
        have hle2 : b ≤ c := hle
        obtain ⟨app, he, hlen, hid, _⟩ := importGo_spec raws items c 0
        have happ : applyOp items (Op.bulkImport c raws) = items ++ app := by
          simp [applyOp, importFromJSON, he]
        rw [happ]
        constructor
        · intro it hit
          rcases List.mem_append.mp hit with hit | hit
          · obtain ⟨n, hn, hid2⟩ := hb it hit
            exact ⟨n, by simp [opHigh]; omega, hid2⟩
          · obtain ⟨⟨k, hk⟩, hget⟩ := List.mem_iff_get.mp hit
            exact ⟨c + k, by simp [opHigh]; omega, by rw [← hget]; exact hid k hk⟩
        · rw [List.pairwise_append]
          refine ⟨hpw, ?_, ?_⟩
          · rw [List.pairwise_iff_get]
            intro i j hij
            rw [hid i.1 i.2, hid j.1 j.2]
            intro hcontra
            have := natToString_inj hcontra
            omega
          · intro a ha y hy
            obtain ⟨n, hn, hid2⟩ := hb a ha
            obtain ⟨⟨k, hk⟩, hget⟩ := List.mem_iff_get.mp hy
            rw [hid2, ← hget, hid k hk]
            intro hcontra
            have := natToString_inj hcontra
            omega
    exact ih (applyOp items op) (opHigh op) hck2 hstep.1 hstep.2

/-- C6 counterexample: two `addItem` calls that observe the same
`Date.now()` value (here 5) assign the same id twice, so ids produced by
clock-generated sequences are not unconditionally pairwise distinct. -/
theorem uniqueIds_counterexample :
    (runOps [] [Op.add 5, Op.add 5]).map Item.id = ["5", "5"] ∧
    ¬ (runOps [] [Op.add 5, Op.add 5]).Pairwise (fun a c => a.id ≠ c.id) := by
  constructor
  · decide
  · intro h
    have := List.rel_of_pairwise_cons h (by decide :
      (⟨"5", "New Site", "https://example.org/", "🌐"⟩ : Item) ∈
        [⟨"5", "New Site", "https://example.org/", "🌐"⟩])
    exact this rfl

/-- C6 as amended: along every sequence of `addItem` and `importFromJSON`
operations from the empty collection in which each operation's clock value
is at least the bound left by the previous operations (one past the id an
add consumed; the import clock plus the batch size), all assigned ids are
pairwise distinct.  Without that clock discipline the claim fails, see the
counterexample. -/
theorem uniqueIds_amended (ops : List Op) (b : Nat) (hck : ClockedFrom b ops) :
    (runOps [] ops).Pairwise (fun a c => a.id ≠ c.id) :=
  (runOps_unique_ids ops [] b hck (by intro it hit; cases hit) (by simp)).1

/-- Witness for the amended C6 on a concrete well-clocked trace. -/
theorem uniqueIds_amended_witness :
    (runOps [] [Op.add 5, Op.bulkImport 6 [⟨none, some "X", some "https://x.com", none⟩],
      Op.add 9]).Pairwise (fun a c => a.id ≠ c.id) :=
  uniqueIds_amended [Op.add 5, Op.bulkImport 6 [⟨none, some "X", some "https://x.com", none⟩],
    Op.add 9] 0 ⟨by decide, by decide, by decide, trivial⟩

/-- C7 counterexample: a stored payload that parses successfully but is
not an array — here the three-character payload `null`, which
`JSON.parse` maps to the JSON null value — is assigned to the collection
as-is rather than being replaced by the collection-specific defaults,
although it cannot be used as a collection. -/
theorem loadItems_corrupt_counterexample :
    loadItems (fun _ => Except.ok Json.null) (some "null") engineDefaultsJson =
      Json.null ∧ Json.null ≠ engineDefaultsJson :=
  ⟨rfl, fun h => Json.noConfusion h⟩

/-- C7 as amended: `loadItems` never propagates an error — it always
returns either the defaults or the successfully parsed payload; the
defaults are substituted exactly when the stored value is absent or when
parsing it throws; a payload that parses successfully is assigned as-is,
even when it is not an item array. -/
theorem loadItems_amended :
    (∀ parse (defaults : Json), loadItems parse none defaults = defaults)
    ∧ (∀ parse defaults s e, parse s = Except.error e →
      loadItems parse (some s) defaults = defaults)
    ∧ (∀ parse defaults s v, parse s = Except.ok v →
      loadItems parse (some s) defaults = v)
    ∧ (∀ parse defaults stored, loadItems parse stored defaults = defaults ∨
      ∃ s v, stored = some s ∧ parse s = Except.ok v ∧
        loadItems parse stored defaults = v) := by
  refine ⟨fun parse defaults => rfl, ?_, ?_, ?_⟩
  · intro parse defaults s e he
    simp [loadItems, he]
  · intro parse defaults s v hv
    simp [loadItems, hv]
  · intro parse defaults stored
    match stored with
    | none => exact Or.inl rfl
    | some s =>
      cases hp : parse s with
      | ok v => exact Or.inr ⟨s, v, rfl, hp, by simp [loadItems, hp]⟩
      | error e => exact Or.inl (by simp [loadItems, hp])

/-- Witness for the amended C7: an unparseable stored payload falls back
to the search-engine defaults. -/
theorem loadItems_amended_witness :
    loadItems (fun _ => Except.error "SyntaxError") (some "not json")
      engineDefaultsJson = engineDefaultsJson :=
  loadItems_amended.2.1 (fun _ => Except.error "SyntaxError") engineDefaultsJson
    "not json" "SyntaxError" rfl

/-- C8: `saveItems` dispatches the `itemsUpdated` notification after every
call — in particular after every successful persist — and leaves the
in-memory collection untouched; on a successful write the full serialized
collection is stored and nothing is logged; on a failed write the failure
is logged, the stored value is unchanged, and the in-memory collection is
not rolled back and remains authoritative. -/
theorem saveItems_persist_spec :
    ∀ (serialize : List Item → String) (writeOk : Bool) (store : Option String) items,
      (saveItems serialize writeOk store items).emitted = true ∧
      (saveItems serialize writeOk store items).items = items ∧
      (writeOk = true → saveItems serialize writeOk store items =
        ⟨some (serialize items), false, true, items⟩) ∧
      (writeOk = false → saveItems serialize writeOk store items =
        ⟨store, true, true, items⟩) := by
  intro serialize writeOk store items
  cases writeOk <;> simp [saveItems]

/-- Witness for C8 at a concrete write failure. -/
theorem saveItems_persist_spec_witness :
    saveItems (fun _ => "payload") false (some "old") [⟨"1", "A", "u", "i"⟩] =
      ⟨some "old", true, true, [⟨"1", "A", "u", "i"⟩]⟩ :=
  (saveItems_persist_spec (fun _ => "payload") false (some "old")
    [⟨"1", "A", "u", "i"⟩]).2.2.2 rfl

/-- C9: the search-engine url validator rejects every url without the
`\x7bquery\x7d` token — in particular `https://example.com/search?q=test`
— accepts `https://example.com/search?q=\x7bquery\x7d`, and in general
accepts exactly the urls that contain the token and whose text with the
token substituted (by `test`) parses as a URL. -/
theorem engineValidateUrl_spec :
    (∀ url, strContains url queryToken = false →
      (engineValidateUrl canParseModel url).1 = false)
    ∧ (engineValidateUrl canParseModel "https://example.com/search?q=test").1 = false
    ∧ (engineValidateUrl canParseModel
        "https://example.com/search?q=\x7bquery\x7d").1 = true
    ∧ (∀ url, (engineValidateUrl canParseModel url).1 = true ↔
        strContains url queryToken = true ∧
        canParseModel (strReplaceFirst url queryToken "test") = true) := by
  refine ⟨?_, by decide, by decide, ?_⟩
  · intro url h
    simp [engineValidateUrl, h]
  · intro url
    cases hq : strContains url queryToken
    · simp [engineValidateUrl, hq]
    · cases hcp : canParseModel (strReplaceFirst url queryToken "test") <;>
        simp [engineValidateUrl, hq, hcp]

/-- Witness for C9: a concrete url without the placeholder is rejected. -/
theorem engineValidateUrl_spec_witness :
    (engineValidateUrl canParseModel "https://abc.example/").1 = false :=
  engineValidateUrl_spec.1 "https://abc.example/" (by decide)

/-- C10: a successful `saveEdit` on the item with the given id updates
only that item's name and url (to the trimmed field values): its id and
icon are kept, every other item is unchanged, and the relative order of
all items is preserved; the change is persisted and the card leaves
editing mode. -/
theorem saveEdit_success_frame :
    ∀ validate pre (it : Item) post (rawName rawUrl : String),
      (∀ x ∈ pre, x.id ≠ it.id) →
      jsTrim rawName ≠ "" → jsTrim rawUrl ≠ "" →
      (validate (jsTrim rawUrl)).1 = true →
      saveEdit validate (pre ++ it :: post) it.id rawName rawUrl =
        ⟨pre ++ ⟨it.id, jsTrim rawName, jsTrim rawUrl, it.icon⟩ :: post, true, false,
          (validate (jsTrim rawUrl)).2⟩ := by
  intro validate pre it post rawName rawUrl hpre hn hu hv
  have hf : jsFindIndex (fun s => s.id = it.id) (pre ++ it :: post) =
      some pre.length :=
    jsFindIndex_append_cons _ pre it post (fun x hx => by simp [hpre x hx]) (by simp)
  have hget : (pre ++ it :: post).get? pre.length = some it := get_append_cons pre it post
  have htake : (pre ++ it :: post).take pre.length = pre := by
    simp
  have hgg : ∀ (h2 : pre.length < (pre ++ it :: post).length),
      (pre ++ it :: post).get ⟨pre.length, h2⟩ = it := by
    intro h2
    have h3 := get_append_cons pre it post
    rw [List.get?_eq_get h2] at h3
    exact Option.some.inj h3
  simp [saveEdit, hn, hu, hv, hf, hget, htake, drop_append_cons]
  exact ⟨congrArg Item.id (hgg (by simp)), congrArg Item.icon (hgg (by simp))⟩

/-- Witness for C10 at a concrete one-item collection. -/
theorem saveEdit_success_frame_witness :
    saveEdit (siteValidateUrl canParseModel) [⟨"1", "A", "https://a.com", "i"⟩] "1"
      " B " " https://b.org " =
      ⟨[⟨"1", "B", "https://b.org", "i"⟩], true, false, []⟩ :=
  saveEdit_success_frame (siteValidateUrl canParseModel) []
    ⟨"1", "A", "https://a.com", "i"⟩ [] " B " " https://b.org "
    (by decide) (by decide) (by decide) (by decide)
